import Mathlib

/-!
Verification development for the PAdES qualified electronic signature
application (RSAKeysGenerator + PAdES-app).

The Python sources are shallowly embedded: byte strings become `List Nat`,
exceptions become `Option`/sum-like outcome types, and the external
cryptographic primitives of the `cryptography` library (the AES block
cipher, SHA-256, RSA-PSS sign/verify, PEM key loading) are abstract
function parameters, constrained only by the documented properties the
proofs need (for instance, that AES block decryption inverts encryption).
Everything the repository itself computes — the PIN-to-key flow, the
IV ‖ ciphertext blob layout, PKCS#7 padding and unpadding, CBC chaining,
the signature container marker format and its `bytes.split`-based parsing,
and the GUI button control flow — is translated from the source.
-/

/-- Bytes are modelled as lists of naturals (each in 0..255 at the source). -/
abbrev Bytes := List Nat

/-- UTF-8 encoding of a string, as used by the Python `str.encode()` calls. -/
def utf8Encode (s : String) : Bytes :=
  s.toUTF8.toList.map (fun b => b.toNat)

/-- The container marker `b"\n%%PAdES_SIGNATURE%%\n"` from the source
(`sign_pdf` / `extract_content_and_signature`). -/
def marker : Bytes :=
  [10, 37, 37, 80, 65, 100, 69, 83, 95, 83, 73, 71, 78, 65, 84, 85, 82, 69, 37, 37, 10]

/-- Bytewise xor of two byte strings (the CBC chaining operation). -/
def xorBytes (a b : Bytes) : Bytes :=
  List.zipWith (fun x y => x ^^^ y) a b

/-- Cut a byte string into 16-byte blocks; `fuel` bounds the recursion and is
always instantiated with the length of the input. -/
def toBlocks : Nat → Bytes → List Bytes
  | 0, b => if b = [] then [] else [b]
  | n + 1, b => if b = [] then [] else b.take 16 :: toBlocks n (b.drop 16)

/-- 16-byte blocks of a byte string (the AES-CBC block view). -/
def chunk16 (b : Bytes) : List Bytes :=
  toBlocks b.length b

/-- PKCS#7 padding to a 16-byte boundary, as performed by
`padding.PKCS7(128).padder()` on the serialized private key. -/
def pkcs7pad (bs : Bytes) : Bytes :=
  let n := 16 - bs.length % 16
  bs ++ List.replicate n n

/-- PKCS#7 unpadding as performed by `padding.PKCS7(128).unpadder()`:
fails (raises, here `none`) on empty input, on input that is not a whole
number of 16-byte blocks, and on any invalid padding byte. -/
def pkcs7unpad (bs : Bytes) : Option Bytes :=
  if bs.length = 0 then none
  else if bs.length % 16 ≠ 0 then none
  else
    bs.getLast?.bind (fun n =>
      if n = 0 then none
      else if 16 < n then none
      else if bs.drop (bs.length - n) = List.replicate n n then
        some (bs.take (bs.length - n))
      else none)

/-- CBC encryption over a list of plaintext blocks: each block is xored with
the previous ciphertext block (initially the IV) and put through the block
cipher `enc` under `key`. -/
def cbcEncBlocks (enc : Bytes → Bytes → Bytes) (key : Bytes) :
    Bytes → List Bytes → List Bytes
  | _, [] => []
  | prev, b :: bs =>
    let c := enc key (xorBytes b prev)
    c :: cbcEncBlocks enc key c bs

/-- CBC decryption over a list of ciphertext blocks. -/
def cbcDecBlocks (dec : Bytes → Bytes → Bytes) (key : Bytes) :
    Bytes → List Bytes → List Bytes
  | _, [] => []
  | prev, b :: bs => xorBytes (dec key b) prev :: cbcDecBlocks dec key b bs

/-- AES-256-CBC encryption of a byte string
(`Cipher(algorithms.AES(key), modes.CBC(iv))` encryptor). -/
def cbcEncrypt (enc : Bytes → Bytes → Bytes) (key iv pt : Bytes) : Bytes :=
  (cbcEncBlocks enc key iv (chunk16 pt)).flatten

/-- AES-256-CBC decryption of a byte string. -/
def cbcDecrypt (dec : Bytes → Bytes → Bytes) (key iv ct : Bytes) : Bytes :=
  (cbcDecBlocks dec key iv (chunk16 ct)).flatten

/-- The PIN-derived AES key: SHA-256 over the UTF-8 bytes of the PIN
(`pin_hash.update(pin.encode()); pin_aes_key = pin_hash.finalize()`),
identical in `encrypt_private_key` and `decrypt_private_key`. -/
def pinAesKey (sha256 : Bytes → Bytes) (pin : String) : Bytes :=
  sha256 (utf8Encode pin)

/-- The at-rest protection with an explicit symmetric key: PKCS#7-pad the
serialized key, CBC-encrypt it, and return IV ‖ ciphertext. -/
def encrypt_with_key (enc : Bytes → Bytes → Bytes) (key iv pem : Bytes) : Bytes :=
  iv ++ cbcEncrypt enc key iv (pkcs7pad pem)

/-- `encrypt_private_key(private_key_pem, pin)` from RSAKeysGenerator/main.py;
the fresh random IV (`os.urandom(16)`) is passed as an explicit argument. -/
def encrypt_private_key (enc : Bytes → Bytes → Bytes) (sha256 : Bytes → Bytes)
    (iv pem : Bytes) (pin : String) : Bytes :=
  encrypt_with_key enc (pinAesKey sha256 pin) iv pem

/-- Unprotection with an explicit symmetric key: split the first 16 bytes as
the IV and the rest as ciphertext, CBC-decrypt, remove PKCS#7 padding.
A short blob (IV shorter than 16 bytes), a ciphertext that is not a whole
number of blocks, or invalid padding all raise in the source and
become `none`. -/
def decrypt_with_key (dec : Bytes → Bytes → Bytes) (key blob : Bytes) : Option Bytes :=
  let iv := blob.take 16
  let ct := blob.drop 16
  if iv.length = 16 ∧ ct.length % 16 = 0 then
    pkcs7unpad (cbcDecrypt dec key iv ct)
  else none

/-- `decrypt_private_key()` from PAdES-app/main.py, with the file content and
the PIN as explicit arguments. -/
def decrypt_private_key (dec : Bytes → Bytes → Bytes) (sha256 : Bytes → Bytes)
    (blob : Bytes) (pin : String) : Option Bytes :=
  decrypt_with_key dec (pinAesKey sha256 pin) blob

/-- The RSAKeysGenerator PIN policy from `on_generate_button_click`:
`pin.isdigit()` and `len(pin) == 6`. -/
def is_six_digit_pin (p : String) : Bool :=
  p.data.all (fun c => c.isDigit) && p.length == 6

section Pkcs7Lemmas

theorem getLast?_replicate_of_ne_zero {n : Nat} (v : Nat) (h : n ≠ 0) :
    (List.replicate n v).getLast? = some v := by
  obtain ⟨m, rfl⟩ := Nat.exists_eq_succ_of_ne_zero h
  rw [List.replicate_succ' m v]
  exact List.getLast?_concat _

theorem pkcs7pad_length_mod (bs : Bytes) : (pkcs7pad bs).length % 16 = 0 := by
  simp only [pkcs7pad, List.length_append, List.length_replicate]
  omega

theorem pkcs7_unpad_pad (bs : Bytes) : pkcs7unpad (pkcs7pad bs) = some bs := by
  have hmod := pkcs7pad_length_mod bs
  set n := 16 - bs.length % 16 with hn
  have hn0 : n ≠ 0 := by omega
  have hn16 : ¬ 16 < n := by omega
  have hlen : (pkcs7pad bs).length = bs.length + n := by
    simp [pkcs7pad, hn]
  have hlast : (pkcs7pad bs).getLast? = some n := by
    simp only [pkcs7pad]
    rw [List.getLast?_append, getLast?_replicate_of_ne_zero n hn0]
    rfl
  have hlenpos : (pkcs7pad bs).length ≠ 0 := by omega
  have hsub : (pkcs7pad bs).length - n = bs.length := by omega
  rw [pkcs7unpad, if_neg hlenpos, if_neg (by simp [hmod]), hlast, Option.some_bind]
  rw [if_neg hn0, if_neg hn16, hsub]
  have hdrop : (pkcs7pad bs).drop bs.length = List.replicate n n := by
    simp only [pkcs7pad]
    exact List.drop_left' rfl
  have htake : (pkcs7pad bs).take bs.length = bs := by
    simp only [pkcs7pad]
    exact List.take_left' rfl
  rw [if_pos hdrop, htake]

end Pkcs7Lemmas

section BlockLemmas

theorem toBlocks_nil (f : Nat) : toBlocks f [] = [] := by
  cases f <;> simp [toBlocks]

theorem toBlocks_fuel : ∀ (f g : Nat) (b : Bytes),
    b.length ≤ f → b.length ≤ g → toBlocks f b = toBlocks g b := by
  intro f
  induction f with
  | zero =>
    intro g b hf _
    have : b = [] := List.length_eq_zero.mp (Nat.le_zero.mp hf)
    subst this
    rw [toBlocks_nil, toBlocks_nil]
  | succ f ih =>
    intro g b hf hg
    cases hb : b with
    | nil => rw [toBlocks_nil, toBlocks_nil]
    | cons a t =>
      subst hb
      cases g with
      | zero =>
        exfalso
        simp at hg
      | succ g =>
        simp only [toBlocks, if_neg (List.cons_ne_nil a t)]
        have hlen : ((a :: t).drop 16).length ≤ f := by
          simp only [List.length_drop, List.length_cons] at *
          omega
        have hlen2 : ((a :: t).drop 16).length ≤ g := by
          simp only [List.length_drop, List.length_cons] at *
          omega
        rw [ih g _ hlen hlen2]

theorem chunk16_append16 (l rest : Bytes) (hl : l.length = 16) :
    chunk16 (l ++ rest) = l :: chunk16 rest := by
  have hlen : (l ++ rest).length = 16 + rest.length := by simp [hl]
  unfold chunk16
  rw [hlen]
  have h1 : 16 + rest.length = (15 + rest.length) + 1 := by omega
  rw [h1]
  have hne : l ++ rest ≠ [] := by
    intro hcontra
    have := congrArg List.length hcontra
    simp [hl] at this
  simp only [toBlocks, if_neg hne]
  have htake : (l ++ rest).take 16 = l := List.take_left' hl
  have hdrop : (l ++ rest).drop 16 = rest := List.drop_left' hl
  rw [htake, hdrop]
  rw [toBlocks_fuel (15 + rest.length) rest.length rest (by omega) (le_refl _)]

theorem flatten_toBlocks : ∀ (f : Nat) (b : Bytes),
    b.length ≤ f → (toBlocks f b).flatten = b := by
  intro f
  induction f with
  | zero =>
    intro b hf
    have : b = [] := List.length_eq_zero.mp (Nat.le_zero.mp hf)
    subst this
    simp [toBlocks]
  | succ f ih =>
    intro b hf
    cases hb : b with
    | nil => simp [toBlocks]
    | cons a t =>
      subst hb
      simp only [toBlocks, if_neg (List.cons_ne_nil a t), List.flatten_cons]
      rw [ih _ (by simp only [List.length_drop, List.length_cons] at *; omega)]
      exact List.take_append_drop 16 (a :: t)

theorem flatten_chunk16 (b : Bytes) : (chunk16 b).flatten = b :=
  flatten_toBlocks b.length b (le_refl _)

theorem chunk16_flatten : ∀ (bl : List Bytes),
    (∀ l ∈ bl, l.length = 16) → chunk16 bl.flatten = bl := by
  intro bl
  induction bl with
  | nil => intro _; simp [chunk16, toBlocks]
  | cons l bs ih =>
    intro h
    rw [List.flatten_cons, chunk16_append16 l bs.flatten (h l (by simp))]
    rw [ih (fun x hx => h x (by simp [hx]))]

theorem chunk16_blocks_length : ∀ (f : Nat) (b : Bytes),
    b.length ≤ f → b.length % 16 = 0 → ∀ l ∈ toBlocks f b, l.length = 16 := by
  intro f
  induction f with
  | zero =>
    intro b hf _
    have : b = [] := List.length_eq_zero.mp (Nat.le_zero.mp hf)
    subst this
    simp [toBlocks]
  | succ f ih =>
    intro b hf hmod
    cases hb : b with
    | nil => simp [toBlocks]
    | cons a t =>
      subst hb
      simp only [toBlocks, if_neg (List.cons_ne_nil a t), List.mem_cons]
      intro l hl
      have hge : 16 ≤ (a :: t).length := by
        simp only [List.length_cons] at *
        omega
      rcases hl with hl | hl
      · subst hl
        simp only [List.length_take]
        omega
      · exact ih _ (by simp only [List.length_drop, List.length_cons] at *; omega)
          (by simp only [List.length_drop]; omega) l hl

theorem chunk16_all16 (b : Bytes) (hmod : b.length % 16 = 0) :
    ∀ l ∈ chunk16 b, l.length = 16 :=
  chunk16_blocks_length b.length b (le_refl _) hmod

theorem flatten_length_mod : ∀ (bl : List Bytes),
    (∀ l ∈ bl, l.length = 16) → bl.flatten.length % 16 = 0 := by
  intro bl
  induction bl with
  | nil => intro _; simp
  | cons l bs ih =>
    intro h
    rw [List.flatten_cons, List.length_append, h l (by simp)]
    have := ih (fun x hx => h x (by simp [hx]))
    omega

end BlockLemmas

section XorLemmas

theorem xorBytes_length (a b : Bytes) : (xorBytes a b).length = min a.length b.length := by
  simp [xorBytes]

theorem xorBytes_cancel : ∀ (a b : Bytes), a.length = b.length →
    xorBytes (xorBytes a b) b = a := by
  intro a
  induction a with
  | nil => intro b _; simp [xorBytes]
  | cons x xs ih =>
    intro b hb
    cases b with
    | nil => simp at hb
    | cons y ys =>
      simp only [xorBytes, List.zipWith_cons_cons, List.cons.injEq]
      constructor
      · exact Nat.xor_cancel_right y x
      · exact ih ys (by simpa using hb)

end XorLemmas

section CbcLemmas

theorem cbcEncBlocks_all16 (enc : Bytes → Bytes → Bytes) (key : Bytes)
    (hlen : ∀ k b, b.length = 16 → (enc k b).length = 16) :
    ∀ (bs : List Bytes) (prev : Bytes), prev.length = 16 →
      (∀ l ∈ bs, l.length = 16) →
      ∀ l ∈ cbcEncBlocks enc key prev bs, l.length = 16 := by
  intro bs
  induction bs with
  | nil => intro prev _ _; simp [cbcEncBlocks]
  | cons b rest ih =>
    intro prev hprev hall
    simp only [cbcEncBlocks, List.mem_cons]
    intro l hl
    have hb16 : b.length = 16 := hall b (by simp)
    have hxor : (xorBytes b prev).length = 16 := by
      rw [xorBytes_length, hb16, hprev]; simp
    have hc : (enc key (xorBytes b prev)).length = 16 := hlen key _ hxor
    rcases hl with hl | hl
    · subst hl; exact hc
    · exact ih _ hc (fun x hx => hall x (by simp [hx])) l hl

theorem cbc_blocks_roundtrip (enc dec : Bytes → Bytes → Bytes) (key : Bytes)
    (hdec : ∀ k b, b.length = 16 → dec k (enc k b) = b)
    (hlen : ∀ k b, b.length = 16 → (enc k b).length = 16) :
    ∀ (bs : List Bytes) (prev : Bytes), prev.length = 16 →
      (∀ l ∈ bs, l.length = 16) →
      cbcDecBlocks dec key prev (cbcEncBlocks enc key prev bs) = bs := by
  intro bs
  induction bs with
  | nil => intro prev _ _; simp [cbcEncBlocks, cbcDecBlocks]
  | cons b rest ih =>
    intro prev hprev hall
    have hb16 : b.length = 16 := hall b (by simp)
    have hxor : (xorBytes b prev).length = 16 := by
      rw [xorBytes_length, hb16, hprev]; simp
    simp only [cbcEncBlocks, cbcDecBlocks, List.cons.injEq]
    constructor
    · rw [hdec key _ hxor]
      exact xorBytes_cancel b prev (by omega)
    · exact ih _ (hlen key _ hxor) (fun x hx => hall x (by simp [hx]))

end CbcLemmas

section VaultLemmas

theorem decrypt_encrypt_with_key (enc dec : Bytes → Bytes → Bytes) (key iv pem : Bytes)
    (hdec : ∀ k b, b.length = 16 → dec k (enc k b) = b)
    (hlen : ∀ k b, b.length = 16 → (enc k b).length = 16)
    (hiv : iv.length = 16) :
    decrypt_with_key dec key (encrypt_with_key enc key iv pem) = some pem := by
  have hpadmod : (pkcs7pad pem).length % 16 = 0 := pkcs7pad_length_mod pem
  have hblocks16 : ∀ l ∈ chunk16 (pkcs7pad pem), l.length = 16 :=
    chunk16_all16 _ hpadmod
  have hct16 : ∀ l ∈ cbcEncBlocks enc key iv (chunk16 (pkcs7pad pem)), l.length = 16 :=
    cbcEncBlocks_all16 enc key hlen _ iv hiv hblocks16
  have hctmod : (cbcEncrypt enc key iv (pkcs7pad pem)).length % 16 = 0 :=
    flatten_length_mod _ hct16
  have htake : (encrypt_with_key enc key iv pem).take 16 = iv := by
    unfold encrypt_with_key
    exact List.take_left' hiv
  have hdrop : (encrypt_with_key enc key iv pem).drop 16 =
      cbcEncrypt enc key iv (pkcs7pad pem) := by
    unfold encrypt_with_key
    exact List.drop_left' hiv
  unfold decrypt_with_key
  rw [htake, hdrop, if_pos ⟨hiv, hctmod⟩]
  unfold cbcDecrypt cbcEncrypt
  rw [chunk16_flatten _ hct16]
  rw [cbc_blocks_roundtrip enc dec key hdec hlen _ iv hiv hblocks16]
  rw [flatten_chunk16]
  exact pkcs7_unpad_pad pem

end VaultLemmas

/-- Hash algorithm identifiers of the `cryptography` library as they occur at
the call sites. -/
inductive HashAlg
  | sha1
  | sha256
  | sha512
deriving DecidableEq

/-- The digest size in bytes of a hash algorithm. -/
def HashAlg.digestSize : HashAlg → Nat
  | .sha1 => 20
  | .sha256 => 32
  | .sha512 => 64

/-- The `salt_length` argument of `padding.PSS`: either the sentinel
`MGF1.MAX_LENGTH` or an explicit byte count. -/
inductive SaltLen
  | maxLength
  | explicit (n : Nat)
deriving DecidableEq

/-- The PSS parameters handed to `private_key.sign` / `public_key.verify`:
the MGF1 hash, the salt length, and the hash algorithm applied by the
primitive to the data it is given. -/
structure PSSParams where
  mgfAlg : HashAlg
  saltLength : SaltLen
  hashAlg : HashAlg
deriving DecidableEq

/-- `calculate_max_pss_salt_length` of the `cryptography` library:
`key.key_size // 8 - hash_algorithm.digest_size - 2`. -/
def calculate_max_pss_salt_length (keyBits digestSize : Nat) : Nat :=
  keyBits / 8 - digestSize - 2

/-- Resolution of the salt-length sentinel for a key of `keyBits` bits. -/
def resolve_salt_length : SaltLen → Nat → Nat → Nat
  | .maxLength, keyBits, digestSize => calculate_max_pss_salt_length keyBits digestSize
  | .explicit n, _, _ => n

/-- The PSS parameters used by both `sign_pdf` and `verify_pdf`:
`PSS(mgf=MGF1(SHA256()), salt_length=MGF1.MAX_LENGTH)` with `SHA256()` as
the primitive's hash algorithm. -/
def appPSSParams : PSSParams :=
  { mgfAlg := .sha256, saltLength := .maxLength, hashAlg := .sha256 }

/-- RSA modulus size fixed by `generate_keys` (`key_size=4096`). -/
def rsa_key_size : Nat := 4096

/-- RSA public exponent fixed by `generate_keys` (`public_exponent=65537`). -/
def rsa_public_exponent : Nat := 65537

/-- `buildContainer`: the byte sequence `sign_pdf` writes to the output file —
content, then the fixed marker, then the raw signature. -/
def buildContainer (content signature : Bytes) : Bytes :=
  content ++ marker ++ signature

/-- The signature value computed inside `sign_pdf`: the RSA-PSS primitive
applied to the SHA-256 digest of the content with `appPSSParams`. -/
def sign_signature {Priv : Type} (sha256 : Bytes → Bytes)
    (pssSign : Priv → Bytes → PSSParams → Bytes)
    (content : Bytes) (priv : Priv) : Bytes :=
  pssSign priv (sha256 content) appPSSParams

/-- `sign_pdf(private_key)` from PAdES-app/main.py: hash the document bytes
with SHA-256, PSS-sign the digest, and return the signed container bytes
that the source writes to the `_signed.pdf` file. -/
def sign_pdf {Priv : Type} (sha256 : Bytes → Bytes)
    (pssSign : Priv → Bytes → PSSParams → Bytes)
    (content : Bytes) (priv : Priv) : Bytes :=
  buildContainer content (sign_signature sha256 pssSign content priv)

/-- Bool test that `needle` starts `hay`. -/
def leadsWith : Bytes → Bytes → Bool
  | [], _ => true
  | _ :: _, [] => false
  | a :: as, b :: bs => a == b && leadsWith as bs

/-- Index of the first occurrence of `needle` in `hay`, scanning left to
right, as Python substring search does. -/
def firstOccur (needle : Bytes) : Bytes → Option Nat
  | [] => if needle = [] then some 0 else none
  | a :: t =>
    if leadsWith needle (a :: t) then some 0
    else (firstOccur needle t).map (fun i => i + 1)

/-- Bool version of the Python `marker in pdf_data` membership test. -/
def occursIn (needle hay : Bytes) : Bool :=
  (firstOccur needle hay).isSome

/-- Python `pdf_data.split(marker)`: repeatedly cut at the leftmost
remaining occurrence of the marker (non-overlapping, left to right).
The fuel is always instantiated with the length of the input, which
bounds the number of cuts. -/
def splitF : Nat → Bytes → List Bytes
  | 0, b => [b]
  | f + 1, b =>
    match firstOccur marker b with
    | none => [b]
    | some i => b.take i :: splitF f (b.drop (i + marker.length))

/-- `pdf_data.split(marker)` from `extract_content_and_signature`. -/
def splitOnMarker (b : Bytes) : List Bytes :=
  splitF b.length b

/-- The part of a byte string before its first marker occurrence (the whole
string when the marker does not occur): the first element of the split. -/
def firstSegment (b : Bytes) : Bytes :=
  match firstOccur marker b with
  | none => b
  | some j => b.take j

/-- In `extract_content_and_signature`, the "PDF not signed" dialog is shown
exactly when the marker does not occur in the file; the function then falls
through to the split regardless. -/
def notSignedDialogShown (pdf_data : Bytes) : Bool :=
  !(occursIn marker pdf_data)

/-- `extract_content_and_signature()` from PAdES-app/main.py with the file
content as an explicit argument: split on the marker and return
`(parts[0], parts[1])`. When the marker is absent the split has a single
part and `parts[1]` raises `IndexError`, modelled as `none`. -/
def extract_content_and_signature (pdf_data : Bytes) : Option (Bytes × Bytes) :=
  let parts := splitOnMarker pdf_data
  match parts[0]?, parts[1]? with
  | some c, some s => some (c, s)
  | _, _ => none

/-- `verify_pdf(content, signature)` from PAdES-app/main.py, with the GUI
state as explicit arguments: `fieldsFilled` is the `all([pdf_path.get(),
public_key_path.get()])` test, `loadPub` is `load_pem_public_key` (`none`
when it raises, caught by the outer handler, which returns `False`), and
`pssVerifyExc` is `public_key.verify`, which returns `()` on success and
raises otherwise (`ε` ranges over every possible exception class); the
inner handler turns any such exception into `False`. -/
def verify_pdf {Pub ε : Type} (sha256 : Bytes → Bytes)
    (loadPub : Bytes → Option Pub)
    (pssVerifyExc : Pub → Bytes → Bytes → PSSParams → Except ε Unit)
    (fieldsFilled : Bool) (pubPem content signature : Bytes) : Bool :=
  if !fieldsFilled then false
  else
    match loadPub pubPem with
    | none => false
    | some pub =>
      match pssVerifyExc pub signature (sha256 content) appPSSParams with
      | .ok _ => true
      | .error _ => false

/-- The outcome of `sign_pdf_button` of PAdES-app/main.py as the user
observes it: the "One or more fields empty" dialog, the generic
"Pin is incorrect" dialog produced by the catch-all handler, or success
with the signed container written. -/
inductive SignOutcome
  | emptyFields
  | pinIncorrect
  | success (signedFile : Bytes)
deriving DecidableEq

/-- `sign_pdf_button()` from PAdES-app/main.py: require all three fields
nonempty, decrypt the private key, deserialize it (`load_pem_private_key`,
`none` when it raises), and sign; every exception on the way is caught by
the single handler that shows "Pin is incorrect". The key file content is
the explicit argument `blob`. -/
def sign_pdf_button {Priv : Type} (dec : Bytes → Bytes → Bytes)
    (sha256 : Bytes → Bytes) (loadPem : Bytes → Option Priv)
    (pssSign : Priv → Bytes → PSSParams → Bytes)
    (pdf_path priv_path pin : String) (blob content : Bytes) : SignOutcome :=
  if pdf_path = "" ∨ priv_path = "" ∨ pin = "" then .emptyFields
  else
    match decrypt_private_key dec sha256 blob pin with
    | none => .pinIncorrect
    | some pem =>
      match loadPem pem with
      | none => .pinIncorrect
      | some priv => .success (sign_pdf sha256 pssSign content priv)

/-- The outcome of `sign_pdf_button` of PAdES-app/pades-app-main.py:
this variant additionally runs `os.path.exists` over the document path,
the private-key path and the PIN string, and reports a missing-path error
when any of them fails; a failed key-file read is reported as
"Couldn't sign the pdf". -/
inductive SignOutcomeV2
  | emptyFields
  | missingPath
  | readFailure
  | pinIncorrect
  | success (signedFile : Bytes)
deriving DecidableEq

/-- `sign_pdf_button()` from PAdES-app/pades-app-main.py: `exists_fs` is
`os.path.exists`, `readKeyFile` is `get_encrypted_private_key` (keyed by the
private-key path, `none` when the read fails). -/
def sign_pdf_button_v2 {Priv : Type} (dec : Bytes → Bytes → Bytes)
    (sha256 : Bytes → Bytes) (exists_fs : String → Bool)
    (readKeyFile : String → Option Bytes) (loadPem : Bytes → Option Priv)
    (pssSign : Priv → Bytes → PSSParams → Bytes)
    (pdf_path priv_path pin : String) (content : Bytes) : SignOutcomeV2 :=
  if pdf_path = "" ∨ priv_path = "" ∨ pin = "" then .emptyFields
  else if !(exists_fs pdf_path) then .missingPath
  else if !(exists_fs priv_path) then .missingPath
  else if !(exists_fs pin) then .missingPath
  else
    match readKeyFile priv_path with
    | none => .readFailure
    | some blob =>
      match decrypt_private_key dec sha256 blob pin with
      | none => .pinIncorrect
      | some pem =>
        match loadPem pem with
        | none => .pinIncorrect
        | some priv => .success (sign_pdf sha256 pssSign content priv)

section SplitLemmas

theorem marker_ne_nil : marker ≠ [] := by decide

theorem marker_length : marker.length = 21 := by decide

theorem firstOccur_marker_nil : firstOccur marker [] = none := by
  simp [firstOccur, marker_ne_nil]

theorem splitF_of_no_marker (f : Nat) (b : Bytes) (h : firstOccur marker b = none) :
    splitF f b = [b] := by
  cases f with
  | zero => rfl
  | succ f => simp [splitF, h]

theorem splitF_head (f : Nat) (b : Bytes) (hf : b.length ≤ f) :
    (splitF f b)[0]? = some (firstSegment b) := by
  cases f with
  | zero =>
    have : b = [] := List.length_eq_zero.mp (Nat.le_zero.mp hf)
    subst this
    simp [splitF, firstSegment, firstOccur_marker_nil]
  | succ f =>
    cases hfo : firstOccur marker b with
    | none => simp [splitF, hfo, firstSegment]
    | some j => simp [splitF, hfo, firstSegment]

theorem extract_eq (data : Bytes) (i : Nat) (h : firstOccur marker data = some i) :
    extract_content_and_signature data =
      some (data.take i, firstSegment (data.drop (i + marker.length))) := by
  cases data with
  | nil => rw [firstOccur_marker_nil] at h; exact absurd h (by simp)
  | cons a t =>
    unfold extract_content_and_signature splitOnMarker
    simp only [List.length_cons]
    rw [splitF, h]
    have hrest : ((a :: t).drop (i + marker.length)).length ≤ t.length := by
      simp only [List.length_drop, List.length_cons, marker_length]
      omega
    simp only [List.getElem?_cons_zero, List.getElem?_cons_succ,
      splitF_head t.length _ hrest]

end SplitLemmas

/-- Claim C1: key-protection round trip — for every valid 6-digit PIN p and
every serialized private key, decrypting the IV-prefixed AES-256-CBC blob
produced by `encrypt_private_key` with the same PIN and removing the PKCS#7
padding recovers the original PEM bytes. The AES block cipher is abstract,
assumed only to be length-preserving and inverted by its decryption. -/
theorem key_protection_roundtrip
    (AESenc AESdec : Bytes → Bytes → Bytes) (sha256 : Bytes → Bytes)
    (hdec : ∀ k b, b.length = 16 → AESdec k (AESenc k b) = b)
    (hlen : ∀ k b, b.length = 16 → (AESenc k b).length = 16)
    (iv : Bytes) (hiv : iv.length = 16) (pem : Bytes) (p : String)
    (hp : is_six_digit_pin p = true) :
    decrypt_private_key AESdec sha256
      (encrypt_private_key AESenc sha256 iv pem p) p = some pem := by
  unfold decrypt_private_key encrypt_private_key
  exact decrypt_encrypt_with_key AESenc AESdec (pinAesKey sha256 p) iv pem hdec hlen hiv

/-- Witness for C1 at a concrete cipher (identity block cipher), key, IV,
PEM and the PIN 123456. -/
theorem key_protection_roundtrip_witness :
    decrypt_private_key (fun _ b => b) (fun _ => List.replicate 32 0)
      (encrypt_private_key (fun _ b => b) (fun _ => List.replicate 32 0)
        (List.replicate 16 7) [1, 2, 3] "123456") "123456" = some [1, 2, 3] :=
  key_protection_roundtrip (fun _ b => b) (fun _ b => b) (fun _ => List.replicate 32 0)
    (fun _ _ _ => rfl) (fun _ _ hb => hb) (List.replicate 16 7) (by simp)
    [1, 2, 3] "123456" (by decide)

/-- Claim C3: unified vault failure — whenever `decrypt_private_key` fails,
for any reason (wrong PIN, truncated blob, corrupted blob), the sign button
of PAdES-app/main.py shows the one generic "Pin is incorrect" outcome, with
no externally observable distinction between the failure causes. -/
theorem decrypt_failure_unified {Priv : Type}
    (dec : Bytes → Bytes → Bytes) (sha256 : Bytes → Bytes)
    (loadPem : Bytes → Option Priv) (pssSign : Priv → Bytes → PSSParams → Bytes)
    (pdf_path priv_path pin : String) (blob content : Bytes)
    (hpdf : pdf_path ≠ "") (hpriv : priv_path ≠ "") (hpin : pin ≠ "")
    (hfail : decrypt_private_key dec sha256 blob pin = none) :
    sign_pdf_button dec sha256 loadPem pssSign pdf_path priv_path pin blob content =
      SignOutcome.pinIncorrect := by
  unfold sign_pdf_button
  rw [if_neg (by simp [hpdf, hpriv, hpin]), hfail]

/-- Witness for C3 at a concrete truncated blob (the empty file). -/
theorem decrypt_failure_unified_witness :
    sign_pdf_button (fun _ b => b) (fun _ => List.replicate 32 0)
      (fun _ => (none : Option Unit)) (fun _ _ _ => [])
      "a" "b" "123456" [] [] = SignOutcome.pinIncorrect :=
  decrypt_failure_unified _ _ _ _ "a" "b" "123456" [] []
    (by decide) (by decide) (by decide) (by decide)

/-- Claim C7: PIN key derivation — the symmetric key is exactly SHA-256 of
the UTF-8 bytes of the PIN, 32 bytes, with no salt and no iteration, and
both the protection side (`encrypt_private_key`) and the unprotection side
(`decrypt_private_key`) use that very value directly as the AES-256 key. -/
theorem pin_key_derivation (sha256 : Bytes → Bytes)
    (h32 : ∀ b, (sha256 b).length = 32)
    (AESenc AESdec : Bytes → Bytes → Bytes) (iv pem blob : Bytes) (pin : String) :
    pinAesKey sha256 pin = sha256 (utf8Encode pin) ∧
    (pinAesKey sha256 pin).length = 32 ∧
    encrypt_private_key AESenc sha256 iv pem pin =
      encrypt_with_key AESenc (sha256 (utf8Encode pin)) iv pem ∧
    decrypt_private_key AESdec sha256 blob pin =
      decrypt_with_key AESdec (sha256 (utf8Encode pin)) blob :=
  ⟨rfl, h32 _, rfl, rfl⟩

/-- Witness for C7 at a concrete hash function and PIN. -/
theorem pin_key_derivation_witness :
    pinAesKey (fun _ => List.replicate 32 0) "123456" = List.replicate 32 0 ∧
    (pinAesKey (fun _ => List.replicate 32 0) "123456").length = 32 ∧
    encrypt_private_key (fun _ b => b) (fun _ => List.replicate 32 0) [] [] "123456" =
      encrypt_with_key (fun _ b => b) (List.replicate 32 0) [] [] ∧
    decrypt_private_key (fun _ b => b) (fun _ => List.replicate 32 0) [] "123456" =
      decrypt_with_key (fun _ b => b) (List.replicate 32 0) [] :=
  pin_key_derivation (fun _ => List.replicate 32 0) (fun _ => by simp)
    (fun _ b => b) (fun _ b => b) [] [] [] "123456"

/-- Counterexample for C2: the content X followed by the first 20 marker
bytes does not contain the marker, yet with the empty signature the round
trip fails — the appended marker completes an earlier straddling occurrence,
so the split returns a different pair. -/
theorem container_roundtrip_counterexample :
    occursIn marker (88 :: marker.take 20) = false ∧
    extract_content_and_signature (buildContainer (88 :: marker.take 20) []) ≠
      some (88 :: marker.take 20, []) := by
  constructor
  · decide
  · decide

/-- Claim C2 (amended): the container round trip
`extract_content_and_signature (buildContainer content sig) = (content, sig)`
holds provided the first occurrence of the marker in the built container is
the appended one (at index `content.length`, which rules out occurrences
inside the content and occurrences straddling the content/marker boundary)
and the marker does not occur in the signature. -/
theorem container_roundtrip_amended (c s : Bytes)
    (h1 : firstOccur marker (buildContainer c s) = some c.length)
    (h2 : firstOccur marker s = none) :
    extract_content_and_signature (buildContainer c s) = some (c, s) := by
  rw [extract_eq _ _ h1]
  have htake : (buildContainer c s).take c.length = c := by
    unfold buildContainer
    rw [List.append_assoc]
    exact List.take_left' rfl
  have hdrop : (buildContainer c s).drop (c.length + marker.length) = s := by
    unfold buildContainer
    exact List.drop_left' (by simp)
  rw [htake, hdrop]
  simp [firstSegment, h2]

/-- Witness for C2 (amended) at a concrete one-byte content and signature. -/
theorem container_roundtrip_amended_witness :
    extract_content_and_signature (buildContainer [65] [66]) = some ([65], [66]) :=
  container_roundtrip_amended [65] [66] (by decide) (by decide)

/-- Counterexample for C4: on the input marker ‖ marker the code returns the
empty signature (the segment between the two occurrences), although the
bytes strictly after the first occurrence form the whole second marker. -/
theorem first_occurrence_split_counterexample :
    extract_content_and_signature (marker ++ marker) = some ([], []) ∧
    (marker ++ marker).drop (0 + marker.length) ≠ [] := by
  constructor
  · decide
  · decide

/-- Claim C4 (amended): when the marker occurs, the split returns as content
all bytes strictly before the first occurrence, and as signature the bytes
strictly after that occurrence only up to (not including) the next
occurrence — not all remaining bytes when the marker occurs again. -/
theorem first_occurrence_split_amended (data : Bytes) (i : Nat)
    (h : firstOccur marker data = some i) :
    extract_content_and_signature data =
      some (data.take i, firstSegment (data.drop (i + marker.length))) :=
  extract_eq data i h

/-- Witness for C4 (amended) at a concrete input with two marker
occurrences. -/
theorem first_occurrence_split_witness :
    extract_content_and_signature (buildContainer [65] (buildContainer [66] [67])) =
      some ((buildContainer [65] (buildContainer [66] [67])).take 1,
        firstSegment ((buildContainer [65] (buildContainer [66] [67])).drop
          (1 + marker.length))) :=
  first_occurrence_split_amended (buildContainer [65] (buildContainer [66] [67])) 1
    (by decide)

/-- Claim C5, evaluated at a failing input: on marker-free input the code
does show the "PDF not signed" dialog, but — lacking a return — it then
executes `pdf_data.split(marker)[1]`, which raises `IndexError` (`none`
here) instead of stopping at the typed NotSigned failure. -/
theorem missing_marker_index_error :
    notSignedDialogShown [1, 2, 3] = true ∧
    extract_content_and_signature [1, 2, 3] = none := by
  constructor
  · decide
  · decide

/-- Claim C6: `sign_pdf` hashes the content with SHA-256 and signs the
digest with RSA-PSS using MGF1(SHA-256) and the MAX_LENGTH salt sentinel,
which for the fixed 4096-bit modulus resolves to 4096/8 − 32 − 2 = 478
salt bytes; the produced raw signature is 512 bytes (the modulus size),
and the signed file is content ‖ marker ‖ signature. -/
theorem sign_algorithm_parameters {Priv : Type} (sha256 : Bytes → Bytes)
    (pssSign : Priv → Bytes → PSSParams → Bytes)
    (hsig : ∀ (pr : Priv) (d : Bytes) (p : PSSParams),
      (pssSign pr d p).length = rsa_key_size / 8)
    (content : Bytes) (priv : Priv) :
    sign_pdf sha256 pssSign content priv =
      buildContainer content (pssSign priv (sha256 content) appPSSParams) ∧
    appPSSParams.mgfAlg = HashAlg.sha256 ∧
    appPSSParams.hashAlg = HashAlg.sha256 ∧
    appPSSParams.saltLength = SaltLen.maxLength ∧
    resolve_salt_length appPSSParams.saltLength rsa_key_size HashAlg.sha256.digestSize = 478 ∧
    (sign_signature sha256 pssSign content priv).length = 512 := by
  refine ⟨rfl, rfl, rfl, rfl, by decide, ?_⟩
  simp only [sign_signature, hsig]
  decide

set_option maxRecDepth 4096 in
/-- Witness for C6 at a concrete 512-byte signing primitive. -/
theorem sign_algorithm_parameters_witness :
    sign_pdf (fun _ => List.replicate 32 0)
      (fun (_ : Unit) (_ : Bytes) (_ : PSSParams) => List.replicate 512 0) [1] () =
      buildContainer [1] (List.replicate 512 0) ∧
    appPSSParams.mgfAlg = HashAlg.sha256 ∧
    appPSSParams.hashAlg = HashAlg.sha256 ∧
    appPSSParams.saltLength = SaltLen.maxLength ∧
    resolve_salt_length appPSSParams.saltLength rsa_key_size HashAlg.sha256.digestSize = 478 ∧
    (sign_signature (fun _ => List.replicate 32 0)
      (fun (_ : Unit) (_ : Bytes) (_ : PSSParams) => List.replicate 512 0) [1] ()).length = 512 :=
  sign_algorithm_parameters (fun _ => List.replicate 32 0)
    (fun _ _ _ => List.replicate 512 0)
    (fun _ _ _ =>
      show (List.replicate 512 (0 : Nat)).length = rsa_key_size / 8 by
        simp [rsa_key_size])
    [1] ()

/-- Claim C8: verification totality and failure collapse — `verify_pdf`
always returns a boolean and returns true exactly when the fields are
filled, the public key loads, and the RSA-PSS primitive succeeds on the
SHA-256 digest; every primitive exception, of any class ε, and every load
failure yield the same `false`. -/
theorem verify_total_collapse {Pub ε : Type} (sha256 : Bytes → Bytes)
    (loadPub : Bytes → Option Pub)
    (pssVerifyExc : Pub → Bytes → Bytes → PSSParams → Except ε Unit)
    (fieldsFilled : Bool) (pubPem content signature : Bytes) :
    verify_pdf sha256 loadPub pssVerifyExc fieldsFilled pubPem content signature = true ↔
      (fieldsFilled = true ∧ ∃ pub, loadPub pubPem = some pub ∧
        pssVerifyExc pub signature (sha256 content) appPSSParams = Except.ok ()) := by
  unfold verify_pdf
  cases fieldsFilled with
  | false => simp
  | true =>
    cases hl : loadPub pubPem with
    | none => simp [hl]
    | some pub =>
      cases hv : pssVerifyExc pub signature (sha256 content) appPSSParams with
      | ok u => simp [hl, hv]
      | error e => simp [hl, hv]

/-- Claim C9: double hashing — both `sign_pdf` and `verify_pdf` hand the
RSA-PSS primitive the 32-byte SHA-256 digest of the content (which PSS then
hashes again, its hash algorithm parameter being SHA-256 as well), and under
a primitive for which verification accepts what signing produced on the
same digest and parameters, verifying a signed document succeeds. -/
theorem double_hashing_convention {Priv Pub ε : Type} (sha256 : Bytes → Bytes)
    (pssSign : Priv → Bytes → PSSParams → Bytes)
    (loadPub : Bytes → Option Pub)
    (pssVerifyExc : Pub → Bytes → Bytes → PSSParams → Except ε Unit)
    (priv : Priv) (pub : Pub) (pubPem content : Bytes)
    (h32 : ∀ b, (sha256 b).length = 32)
    (hload : loadPub pubPem = some pub)
    (hagree : ∀ d : Bytes,
      pssVerifyExc pub (pssSign priv d appPSSParams) d appPSSParams = Except.ok ()) :
    sign_signature sha256 pssSign content priv =
      pssSign priv (sha256 content) appPSSParams ∧
    (sha256 content).length = 32 ∧
    appPSSParams.hashAlg = HashAlg.sha256 ∧
    verify_pdf sha256 loadPub pssVerifyExc true pubPem content
      (sign_signature sha256 pssSign content priv) = true := by
  refine ⟨rfl, h32 content, rfl, ?_⟩
  simp [verify_pdf, hload, sign_signature, hagree (sha256 content)]

/-- Witness for C9 at a digest-comparing verification primitive. -/
theorem double_hashing_convention_witness :
    sign_signature (fun _ => List.replicate 32 0)
      (fun (_ : Unit) (d : Bytes) (_ : PSSParams) => d) [1] () = List.replicate 32 0 ∧
    (List.replicate (32 : Nat) (0 : Nat)).length = 32 ∧
    appPSSParams.hashAlg = HashAlg.sha256 ∧
    verify_pdf (fun _ => List.replicate 32 0) (fun _ => some ())
      (fun (_ : Unit) (s d : Bytes) (_ : PSSParams) =>
        if s = d then Except.ok () else Except.error (0 : Nat))
      true [2] [1]
      (sign_signature (fun _ => List.replicate 32 0)
        (fun (_ : Unit) (d : Bytes) (_ : PSSParams) => d) [1] ()) = true :=
  double_hashing_convention (fun _ => List.replicate 32 0)
    (fun _ d _ => d) (fun _ => some ())
    (fun _ s d _ => if s = d then Except.ok () else Except.error (0 : Nat))
    () () [2] [1] (fun _ => by simp) rfl (fun d => by simp)

/-- Counterexample for C10: the empty PIN names no filesystem entry, yet
signing is rejected with the empty-fields error, not the missing-path
error, because the emptiness check precedes the `os.path.exists` loop. -/
theorem pin_path_check_counterexample :
    sign_pdf_button_v2 (fun _ b => b) (fun _ => List.replicate 32 0) (fun _ => false)
      (fun _ => none) (fun _ => (none : Option Unit)) (fun _ _ _ => [])
      "a" "b" "" [] = SignOutcomeV2.emptyFields ∧
    SignOutcomeV2.emptyFields ≠ SignOutcomeV2.missingPath := by
  constructor
  · decide
  · decide

/-- Claim C10 (amended): in the pades-app-main variant, given the three
fields are nonempty, any PIN string that does not name an existing
filesystem entry makes the sign button stop with the missing-path error —
for every key-file reader and decryption parameters, so the vault is never
consulted. -/
theorem pin_path_check_amended {Priv : Type} (dec : Bytes → Bytes → Bytes)
    (sha256 : Bytes → Bytes) (exists_fs : String → Bool)
    (readKeyFile : String → Option Bytes) (loadPem : Bytes → Option Priv)
    (pssSign : Priv → Bytes → PSSParams → Bytes)
    (pdf_path priv_path pin : String) (content : Bytes)
    (hpdf : pdf_path ≠ "") (hpriv : priv_path ≠ "") (hpin : pin ≠ "")
    (hfs : exists_fs pin = false) :
    sign_pdf_button_v2 dec sha256 exists_fs readKeyFile loadPem pssSign
      pdf_path priv_path pin content = SignOutcomeV2.missingPath := by
  unfold sign_pdf_button_v2
  rw [if_neg (by simp [hpdf, hpriv, hpin])]
  cases hp : exists_fs pdf_path with
  | false => simp
  | true =>
    cases hq : exists_fs priv_path with
    | false => simp
    | true => simp [hfs]

/-- Witness for C10 (amended) at a concrete nonexistent PIN path. -/
theorem pin_path_check_amended_witness :
    sign_pdf_button_v2 (fun _ b => b) (fun _ => List.replicate 32 0) (fun _ => false)
      (fun _ => none) (fun _ => (none : Option Unit)) (fun _ _ _ => [])
      "a" "b" "123456" [] = SignOutcomeV2.missingPath :=
  pin_path_check_amended _ _ _ _ _ _ "a" "b" "123456" []
    (by decide) (by decide) (by decide) rfl
